import Mathlib

/-!
Verification of the core of a household energy-trading backend
(pricing oracle, offer book, settlement engine, meter aggregator,
market view), shallowly embedded from `backend/app/services.py`.

Monetary and energy quantities are Python floats in the source, but every
stored quantity is passed through `round(x, 4)`; we embed quantities as
exact rationals and model `round(x, 4)` as round-half-even at 4 decimal
places (Python's rounding mode), which is exact on the 4-decimal grid the
system keeps all persistent state on.
-/

namespace EnergyMarket

/-- Round-half-even of a rational to an integer (Python's `round` mode). -/
def rhe (q : ℚ) : ℤ :=
  let f := ⌊q⌋
  let r := q - (f : ℚ)
  if r < 1/2 then f
  else if 1/2 < r then f + 1
  else if f % 2 = 0 then f else f + 1

/-- `round(x, 4)` from the source: round-half-even at 4 decimal places. -/
def round4 (q : ℚ) : ℚ := (rhe (q * 10000) : ℚ) / 10000

/-- The source's floating tolerance `1e-9`. -/
def EPS : ℚ := 1 / 1000000000

/-- `q` lies on the 4-decimal grid (the form of every stored balance,
price and quantity in the system). -/
def isQ4 (q : ℚ) : Prop := ∃ n : ℤ, q = (n : ℚ) / 10000

/-- Keyed row lookup, mirroring the ORM's `db.get(Model, id)`. -/
def getRow {β : Type _} (l : List (ℕ × β)) (k : ℕ) : Option β :=
  match l with
  | [] => none
  | (k', v) :: t => if k = k' then some v else getRow t k

/-- Modelled from the spec: `settings.PLATFORM_FEE_RATE` (config.py is not
part of the provided sources); §8 of the spec fixes the platform fee at 10%. -/
def PLATFORM_FEE_RATE : ℚ := 1 / 10

/-- `UserRole` from `app.models` (only its four role values are used by the
provided sources). -/
inductive UserRole
  | consumer
  | producer
  | both
  | provider
deriving DecidableEq

/-- `OfferStatus` from `app.models` (only `active` and `closed` are used by
the provided sources). -/
inductive OfferStatus
  | active
  | closed
deriving DecidableEq

/-- `SurgeWindow` from services.py: a single surge hour with its multiplier. -/
structure SurgeWindow where
  hour : ℤ
  multiplier : ℚ
deriving DecidableEq

/-- The schedule scan inside `provider_multiplier_now`: first half-open
interval `[start_h, end_h)` containing the hour wins, default `1.0`. -/
def schedule_mult (schedule : List (ℤ × ℤ × ℚ)) (hour : ℤ) : ℚ :=
  match schedule with
  | [] => 1
  | (start_h, end_h, mult) :: rest =>
      if start_h ≤ hour ∧ hour < end_h then mult else schedule_mult rest hour

/-- `provider_multiplier_now` from services.py, with the ambient inputs made
explicit: the configured schedule, the once-chosen surge window (`_SURGE`),
and the local hour computed by `current_hour_24`. -/
def provider_multiplier (schedule : List (ℤ × ℤ × ℚ)) (surge : Option SurgeWindow)
    (hour : ℤ) : ℚ :=
  let m := schedule_mult schedule hour
  match surge with
  | some w => if w.hour = hour then w.multiplier else m
  | none => m

/-- `provider_price_eur_per_kwh_now` from services.py: base * multiplier,
rounded to 4 decimals. -/
def provider_price (base : ℚ) (schedule : List (ℤ × ℤ × ℚ)) (surge : Option SurgeWindow)
    (hour : ℤ) : ℚ :=
  round4 (base * provider_multiplier schedule surge hour)

/-- The `User` row: email, wallet, role, and the EUR balance. -/
structure UserR where
  email : String
  wallet : String
  role : UserRole
  balance_eur : ℚ
deriving DecidableEq

/-- The `Offer` row. -/
structure OfferR where
  seller_id : ℕ
  kwh_total : ℚ
  kwh_remaining : ℚ
  price_eur_per_kwh : ℚ
  status : OfferStatus
  created_ts : ℤ
deriving DecidableEq

/-- The `Trade` row. -/
structure TradeR where
  offer_id : ℕ
  buyer_id : ℕ
  kwh : ℚ
  total_eur : ℚ
  ts : ℤ
  tx_hash : Option String
deriving DecidableEq

/-- The `MeterSample` row. -/
structure MeterSampleR where
  user_id : ℕ
  production_kwh : ℚ
  consumption_kwh : ℚ
  ts : ℤ
deriving DecidableEq

/-- The persistent store: keyed user and offer tables plus the append-only
sample and trade tables, with autoincrement counters. -/
structure DB where
  users : List (ℕ × UserR)
  offers : List (ℕ × OfferR)
  samples : List MeterSampleR
  trades : List TradeR
  next_user_id : ℕ
  next_offer_id : ℕ
deriving DecidableEq

def emptyDB : DB := ⟨[], [], [], [], 1, 1⟩

/-- Write back a mutated user row (the ORM mutates the row in place; here we
replace the entry with the matching key). -/
def setUser (db : DB) (id : ℕ) (u : UserR) : DB :=
  { db with users := db.users.map (fun p => (p.1, if p.1 = id then u else p.2)) }

/-- Write back a mutated offer row. -/
def setOffer (db : DB) (id : ℕ) (o : OfferR) : DB :=
  { db with offers := db.offers.map (fun p => (p.1, if p.1 = id then o else p.2)) }

/-- `create_user` from services.py. -/
def create_user (db : DB) (email wallet : String) (role : UserRole) : DB × ℕ :=
  let id := db.next_user_id
  ({ db with
      users := db.users ++ [(id, ⟨email, wallet, role, 0⟩)],
      next_user_id := id + 1 }, id)

/-- `fund_user` from services.py. -/
def fund_user (db : DB) (user_id : ℕ) (amount : ℚ) : Except String (DB × ℚ) :=
  if amount ≤ 0 then .error "Amount must be positive"
  else
    match getRow db.users user_id with
    | none => .error "User not found"
    | some u =>
        let nb := round4 (u.balance_eur + amount)
        .ok (setUser db user_id { u with balance_eur := nb }, nb)

/-- `record_meter_sample` from services.py. -/
def record_meter_sample (db : DB) (user_id : ℕ) (prod_kwh cons_kwh : ℚ) (ts : ℤ) :
    Except String DB :=
  if prod_kwh < 0 ∨ cons_kwh < 0 then .error "Energy values must be non-negative"
  else
    match getRow db.users user_id with
    | none => .error "User not found"
    | some _ => .ok { db with samples := db.samples ++ [⟨user_id, prod_kwh, cons_kwh, ts⟩] }

/-- Modelled from the spec: the ingestion boundary (`POST /meter_sample` and
its request schema; schemas.py/models.py are not part of the provided
sources) lets the caller omit `ts`, in which case the sample's timestamp
defaults to "now". -/
def post_meter_sample (db : DB) (user_id : ℕ) (prod_kwh cons_kwh : ℚ)
    (ts : Option ℤ) (now : ℤ) : Except String DB :=
  record_meter_sample db user_id prod_kwh cons_kwh (ts.getD now)

/-- `create_offer` from services.py.  `now` stands for `int(time.time())`,
used when the caller supplies no timestamp. -/
def create_offer (db : DB) (seller_id : ℕ) (kwh price_eur_per_kwh : ℚ)
    (ts : Option ℤ) (now : ℤ) : Except String (DB × ℕ × OfferR) :=
  match getRow db.users seller_id with
  | none => .error "Seller not found"
  | some seller =>
      if seller.role ≠ .producer ∧ seller.role ≠ .both then
        .error "Only producers or both can create offers"
      else if kwh ≤ 0 ∨ price_eur_per_kwh ≤ 0 then
        .error "kWh and price must be positive"
      else
        let t := ts.getD now
        let oid := db.next_offer_id
        let o : OfferR :=
          ⟨seller_id, round4 kwh, round4 kwh, round4 price_eur_per_kwh, .active, t⟩
        .ok ({ db with offers := db.offers ++ [(oid, o)], next_offer_id := oid + 1 }, oid, o)

/-- `list_meter_series` from services.py: the user's samples at or after
`since_ts`, ordered by ascending timestamp. -/
def list_meter_series (db : DB) (user_id : ℕ) (since_ts : ℤ) : List (ℤ × ℚ × ℚ) :=
  ((db.samples.filter (fun m => m.user_id = user_id ∧ since_ts ≤ m.ts)).map
      (fun m => (m.ts, m.production_kwh, m.consumption_kwh))).mergeSort
    (fun a b => decide (a.1 ≤ b.1))

/-- `compute_surplus_last_hours` from services.py: per-sample clamped surplus
summed over the trailing window, rounded to 4 decimals. -/
def compute_surplus_last_hours (db : DB) (user_id : ℕ) (hours : ℤ) (now : ℤ) : ℚ :=
  let since_ts := now - hours * 3600
  let rows := list_meter_series db user_id since_ts
  round4 ((rows.map (fun r => max 0 (r.2.1 - r.2.2))).sum)

/-- `MarketItemOut` from `app.schemas`: a unified market entry. -/
structure MarketItemOut where
  kind : String
  virtual_id : Option String
  provider_name : Option String
  current_multiplier : Option ℚ
  offer_id : Option ℕ
  seller_id : Option ℕ
  kwh_remaining : Option ℚ
  price_eur_per_kwh : ℚ
deriving DecidableEq

/-- `list_provider_market_items` from services.py, with the pricing inputs
made explicit. -/
def list_provider_market_items (names : List String) (base : ℚ)
    (schedule : List (ℤ × ℤ × ℚ)) (surge : Option SurgeWindow) (hour : ℤ) :
    List MarketItemOut :=
  let price := provider_price base schedule surge hour
  let mult := provider_multiplier schedule surge hour
  names.map (fun name =>
    ⟨"provider", some ("provider-" ++ name), some name, some mult,
      none, none, none, price⟩)

/-- The SQL ordering of `list_active_household_offers`: price ascending,
ties broken by most recent creation first. -/
def offerOrd (a b : ℕ × OfferR) : Bool :=
  decide (a.2.price_eur_per_kwh < b.2.price_eur_per_kwh ∨
    (a.2.price_eur_per_kwh = b.2.price_eur_per_kwh ∧ b.2.created_ts ≤ a.2.created_ts))

/-- `list_active_household_offers` from services.py. -/
def list_active_household_offers (db : DB) (limit : ℕ) : List (ℕ × OfferR) :=
  ((db.offers.filter (fun p => p.2.status = OfferStatus.active ∧ 0 < p.2.kwh_remaining)).mergeSort
      offerOrd).take limit

/-- The household rendering step inside `list_market_items`. -/
def householdItem (p : ℕ × OfferR) : MarketItemOut :=
  ⟨"household", none, none, none, some p.1, some p.2.seller_id,
    some p.2.kwh_remaining, p.2.price_eur_per_kwh⟩

/-- The final `items.sort(key=lambda it: it.price_eur_per_kwh)` comparison:
Python's `list.sort` is a stable sort by the key. -/
def priceLe (a b : MarketItemOut) : Bool :=
  decide (a.price_eur_per_kwh ≤ b.price_eur_per_kwh)

/-- `list_market_items` from services.py, with the settings inputs made
explicit (`provider_virtual` is `settings.PROVIDER_VIRTUAL_PRICING`). -/
def list_market_items (db : DB) (limit_household : ℕ) (provider_virtual : Bool)
    (names : List String) (base : ℚ) (schedule : List (ℤ × ℤ × ℚ))
    (surge : Option SurgeWindow) (hour : ℤ) : List MarketItemOut :=
  let provider_items :=
    if provider_virtual then list_provider_market_items names base schedule surge hour
    else []
  let items := provider_items ++
    (list_active_household_offers db limit_household).map householdItem
  items.mergeSort priceLe

/-- `accept_offer` from services.py.  The state is threaded exactly in the
source's statement order: every `raise` returns the state as it stood at
that point, so the pair's first component is the database the caller is left
with (`db.begin()` commits only on normal exit; a raise before any mutation
leaves the store untouched). -/
def accept_offer (db : DB) (buyer_id offer_id : ℕ) (kwh : ℚ)
    (tx_hash : Option String) (now : ℤ) : DB × Except String TradeR :=
  if kwh ≤ 0 then (db, .error "kWh must be positive")
  else
    match getRow db.offers offer_id with
    | none => (db, .error "Offer not found")
    | some offer =>
        if offer.status ≠ .active ∨ offer.kwh_remaining ≤ 0 then
          (db, .error "Offer not available")
        else if offer.kwh_remaining + EPS < kwh then
          (db, .error "Requested kWh exceeds remaining")
        else
          match getRow db.users buyer_id with
          | none => (db, .error "Buyer not found")
          | some buyer =>
              match getRow db.users offer.seller_id with
              | none => (db, .error "Seller not found")
              | some _ =>
                  let total := round4 (kwh * offer.price_eur_per_kwh)
                  let fee := round4 (total * PLATFORM_FEE_RATE)
                  let net := round4 (total - fee)
                  if buyer.balance_eur + EPS < total then
                    (db, .error "Insufficient buyer balance")
                  else
                    let db1 := setUser db buyer_id
                      { buyer with balance_eur := round4 (buyer.balance_eur - total) }
                    match getRow db1.users offer.seller_id with
                    | none => (db1, .error "Seller not found")
                    | some seller =>
                        let db2 := setUser db1 offer.seller_id
                          { seller with balance_eur := round4 (seller.balance_eur + net) }
                        let new_rem := round4 (offer.kwh_remaining - kwh)
                        let offer2 :=
                          if new_rem ≤ EPS then
                            { offer with kwh_remaining := 0, status := .closed }
                          else
                            { offer with kwh_remaining := new_rem }
                        let db3 := setOffer db2 offer_id offer2
                        let trade : TradeR :=
                          ⟨offer_id, buyer_id, round4 kwh, total, now, tx_hash⟩
                        ({ db3 with trades := db3.trades ++ [trade] }, .ok trade)

/-- The settlement validation sequence as the spec states it (§4.3): six
checks in a fixed order, the first failure naming the error.  Written from
the spec's words, to be compared with `accept_offer`. -/
def acceptValidationSpec (db : DB) (buyer_id offer_id : ℕ) (kwh : ℚ) : Option String :=
  if kwh ≤ 0 then some "kWh must be positive"
  else
    match getRow db.offers offer_id with
    | none => some "Offer not found"
    | some offer =>
        if ¬(offer.status = .active ∧ 0 < offer.kwh_remaining) then some "Offer not available"
        else if offer.kwh_remaining + EPS < kwh then some "Requested kWh exceeds remaining"
        else
          match getRow db.users buyer_id with
          | none => some "Buyer not found"
          | some buyer =>
              match getRow db.users offer.seller_id with
              | none => some "Seller not found"
              | some _ =>
                  if buyer.balance_eur + EPS < round4 (kwh * offer.price_eur_per_kwh) then
                    some "Insufficient buyer balance"
                  else none

/-- The state invariant of §3/§8: balances are non-negative, and every
offer has a non-negative price, a remaining quantity on the 4-decimal grid
with `0 ≤ remaining ≤ total`, closed exactly when depleted. -/
def OfferInvA (o : OfferR) : Prop :=
  0 ≤ o.price_eur_per_kwh ∧ isQ4 o.kwh_remaining ∧ 0 ≤ o.kwh_remaining ∧
    o.kwh_remaining ≤ o.kwh_total ∧ (o.status = OfferStatus.closed ↔ o.kwh_remaining = 0)

def StateInv (db : DB) : Prop :=
  (∀ p ∈ db.users, 0 ≤ p.2.balance_eur) ∧ (∀ p ∈ db.offers, OfferInvA p.2)

/-- States reachable from the empty store through the core's mutating
operations; offer creation is restricted to quantities whose 4-decimal
rounding is positive (the C2 counterexample shows the unrestricted
operation breaks the offer invariant). -/
inductive Reach : DB → Prop
  | init : Reach emptyDB
  | step_create_user (db : DB) (email wallet : String) (role : UserRole) :
      Reach db → Reach (create_user db email wallet role).1
  | step_fund (db db' : DB) (user_id : ℕ) (amount b : ℚ) :
      Reach db → fund_user db user_id amount = .ok (db', b) → Reach db'
  | step_record (db db' : DB) (user_id : ℕ) (p c : ℚ) (ts : ℤ) :
      Reach db → record_meter_sample db user_id p c ts = .ok db' → Reach db'
  | step_create_offer (db db' : DB) (seller_id : ℕ) (kwh price : ℚ) (ts : Option ℤ)
      (now : ℤ) (oid : ℕ) (o : OfferR) :
      Reach db → 0 < round4 kwh →
      create_offer db seller_id kwh price ts now = .ok (db', oid, o) → Reach db'
  | step_accept (db : DB) (buyer_id offer_id : ℕ) (kwh : ℚ) (tx : Option String) (now : ℤ) :
      Reach db → Reach (accept_offer db buyer_id offer_id kwh tx now).1

/-- The spec's schedule-lookup contract (§4.1): the first configured
interval containing the hour wins, otherwise the implicit default
multiplier 1.0.  Written from the spec's words, to be compared with
`schedule_mult`. -/
def scheduleFirstMatch (schedule : List (ℤ × ℤ × ℚ)) (hour : ℤ) : ℚ :=
  match schedule.find? (fun e => decide (e.1 ≤ hour ∧ hour < e.2.1)) with
  | some e => e.2.2
  | none => 1

/-- A one-account store whose single user also owns the single open offer
(exercises self-trades: buyer 1 accepting offer 7 buys from themselves). -/
def dbSelf : DB :=
  { users := [(1, ⟨"seller", "w", UserRole.both, 10⟩)],
    offers := [(7, ⟨1, 10, 10, 1/5, OfferStatus.active, 0⟩)],
    samples := [], trades := [], next_user_id := 2, next_offer_id := 8 }

/-- A two-account store: seller 1 (balance 0) owns open offer 7, buyer 2
holds balance 5. -/
def dbTwo : DB :=
  { users := [(1, ⟨"seller", "w", UserRole.both, 0⟩),
              (2, ⟨"buyer", "w", UserRole.consumer, 5⟩)],
    offers := [(7, ⟨1, 10, 10, 1/5, OfferStatus.active, 0⟩)],
    samples := [], trades := [], next_user_id := 3, next_offer_id := 8 }

/-- The store reached from empty by registering producer 1 and posting a
2 kWh offer at 0.5 EUR/kWh. -/
def dbC2W : DB :=
  { users := [(1, ⟨"a", "w", UserRole.producer, 0⟩)],
    offers := [(1, ⟨1, 2, 2, 1/2, OfferStatus.active, 0⟩)],
    samples := [], trades := [], next_user_id := 2, next_offer_id := 2 }

/-- The store reached from empty by registering consumer 1 and funding 5. -/
def dbC7W : DB :=
  { users := [(1, ⟨"a", "w", UserRole.consumer, 5⟩)],
    offers := [], samples := [], trades := [], next_user_id := 2, next_offer_id := 1 }

theorem rhe_intCast (n : ℤ) : rhe (n : ℚ) = n := by
  simp only [rhe, Int.floor_intCast, sub_self]
  norm_num

theorem floor_le_rhe (q : ℚ) : ⌊q⌋ ≤ rhe q := by
  simp only [rhe]
  split_ifs <;> omega

theorem rhe_le_floor_add_one (q : ℚ) : rhe q ≤ ⌊q⌋ + 1 := by
  simp only [rhe]
  split_ifs <;> omega

theorem rhe_mono {a b : ℚ} (h : a ≤ b) : rhe a ≤ rhe b := by
  have hf : ⌊a⌋ ≤ ⌊b⌋ := Int.floor_le_floor h
  rcases lt_or_eq_of_le hf with hlt | heq
  · calc rhe a ≤ ⌊a⌋ + 1 := rhe_le_floor_add_one a
      _ ≤ ⌊b⌋ := by omega
      _ ≤ rhe b := floor_le_rhe b
  · have hr : a - (⌊a⌋ : ℚ) ≤ b - (⌊b⌋ : ℚ) := by
      rw [heq]; linarith
    simp only [rhe, heq] at *
    split_ifs <;> first | omega | linarith

theorem round4_mono {a b : ℚ} (h : a ≤ b) : round4 a ≤ round4 b := by
  have : rhe (a * 10000) ≤ rhe (b * 10000) := rhe_mono (by linarith)
  simp only [round4]
  have h2 : ((rhe (a * 10000) : ℚ)) ≤ ((rhe (b * 10000) : ℚ)) := by exact_mod_cast this
  linarith

theorem round4_eq_self {q : ℚ} (h : isQ4 q) : round4 q = q := by
  obtain ⟨n, rfl⟩ := h
  have hq : (n : ℚ) / 10000 * 10000 = (n : ℚ) := by
    field_simp
  rw [round4, hq, rhe_intCast]

theorem isQ4_round4 (q : ℚ) : isQ4 (round4 q) := ⟨rhe (q * 10000), rfl⟩

theorem isQ4_zero : isQ4 0 := ⟨0, by norm_num⟩

theorem isQ4_add {a b : ℚ} (ha : isQ4 a) (hb : isQ4 b) : isQ4 (a + b) := by
  obtain ⟨m, rfl⟩ := ha; obtain ⟨n, rfl⟩ := hb
  exact ⟨m + n, by push_cast; ring⟩

theorem isQ4_sub {a b : ℚ} (ha : isQ4 a) (hb : isQ4 b) : isQ4 (a - b) := by
  obtain ⟨m, rfl⟩ := ha; obtain ⟨n, rfl⟩ := hb
  exact ⟨m - n, by push_cast; ring⟩

theorem isQ4_nonneg_of_neg_eps_le {q : ℚ} (h4 : isQ4 q) (h : -EPS ≤ q) : 0 ≤ q := by
  obtain ⟨n, rfl⟩ := h4
  have h1 : (-1 : ℚ) < (n : ℚ) := by
    rw [EPS] at h
    nlinarith
  have h2 : (-1 : ℤ) < n := by exact_mod_cast h1
  have h3 : (0 : ℚ) ≤ (n : ℚ) := by
    have : (0 : ℤ) ≤ n := by omega
    exact_mod_cast this
  positivity

theorem isQ4_eq_zero_of_le_eps {q : ℚ} (h4 : isQ4 q) (h0 : 0 ≤ q) (h : q ≤ EPS) : q = 0 := by
  obtain ⟨n, rfl⟩ := h4
  have h1 : (n : ℚ) < 1 := by
    rw [EPS] at h
    nlinarith
  have h2 : (0 : ℚ) ≤ (n : ℚ) := by nlinarith
  have hn1 : n < 1 := by exact_mod_cast h1
  have hn2 : (0 : ℤ) ≤ n := by exact_mod_cast h2
  have h3 : n = 0 := by omega
  rw [h3]; norm_num

theorem round4_zero : round4 0 = 0 := by
  have : ((0 : ℤ) : ℚ) = (0 : ℚ) := by norm_num
  rw [round4, zero_mul, ← this, rhe_intCast]
  norm_num

theorem round4_nonneg {q : ℚ} (h : 0 ≤ q) : 0 ≤ round4 q := by
  have := round4_mono h
  rw [round4_zero] at this
  exact this

theorem getRow_replace {β : Type _} (l : List (ℕ × β)) (id j : ℕ) (u : β) :
    getRow (l.map fun p => (p.1, if p.1 = id then u else p.2)) j =
      if j = id then (getRow l id).map (fun _ => u) else getRow l j := by
  induction l with
  | nil => simp [getRow]
  | cons p t ih =>
    obtain ⟨k, v⟩ := p
    simp only [List.map_cons, getRow]
    by_cases h1 : j = k
    · subst h1
      by_cases h2 : j = id
      · subst h2
        simp [getRow]
      · simp [getRow, h2]
    · by_cases h2 : j = id
      · subst h2
        simp only [if_neg h1, ih, if_pos rfl]
      · simp [getRow, h1, h2, ih]

theorem mem_replace {β : Type _} {l : List (ℕ × β)} {id : ℕ} {u : β} {p : ℕ × β}
    (h : p ∈ l.map fun q => (q.1, if q.1 = id then u else q.2)) : p.2 = u ∨ p ∈ l := by
  obtain ⟨q, hq, rfl⟩ := List.mem_map.mp h
  by_cases h1 : q.1 = id
  · simp [h1]
  · simp [h1]
    right
    exact hq

theorem getRow_setUser (db : DB) (id : ℕ) (u : UserR) (j : ℕ) :
    getRow (setUser db id u).users j =
      if j = id then (getRow db.users id).map (fun _ => u) else getRow db.users j :=
  getRow_replace db.users id j u

theorem getRow_setOffer (db : DB) (id : ℕ) (o : OfferR) (j : ℕ) :
    getRow (setOffer db id o).offers j =
      if j = id then (getRow db.offers id).map (fun _ => o) else getRow db.offers j :=
  getRow_replace db.offers id j o

theorem setUser_offers (db : DB) (id : ℕ) (u : UserR) : (setUser db id u).offers = db.offers := rfl

theorem setUser_samples (db : DB) (id : ℕ) (u : UserR) : (setUser db id u).samples = db.samples := rfl

theorem setUser_trades (db : DB) (id : ℕ) (u : UserR) : (setUser db id u).trades = db.trades := rfl

theorem setOffer_users (db : DB) (id : ℕ) (o : OfferR) : (setOffer db id o).users = db.users := rfl

theorem setOffer_samples (db : DB) (id : ℕ) (o : OfferR) : (setOffer db id o).samples = db.samples := rfl

theorem setOffer_trades (db : DB) (id : ℕ) (o : OfferR) : (setOffer db id o).trades = db.trades := rfl

theorem accept_offer_error_char (db : DB) (buyer_id offer_id : ℕ) (kwh : ℚ)
    (tx_hash : Option String) (now : ℤ) (e : String)
    (h : (accept_offer db buyer_id offer_id kwh tx_hash now).2 = .error e) :
    (accept_offer db buyer_id offer_id kwh tx_hash now).1 = db ∧
      acceptValidationSpec db buyer_id offer_id kwh = some e := by
  unfold accept_offer at h ⊢
  unfold acceptValidationSpec
  by_cases h1 : kwh ≤ 0
  · rw [if_pos h1] at h ⊢
    simp_all
  · rw [if_neg h1] at h ⊢
    cases hof : getRow db.offers offer_id with
    | none => rw [hof] at h; simp_all
    | some offer =>
        rw [hof] at h
        simp only [] at h ⊢
        by_cases h2 : offer.status = OfferStatus.active ∧ 0 < offer.kwh_remaining
        · have h2c : ¬(offer.status ≠ OfferStatus.active ∨ offer.kwh_remaining ≤ 0) := by
            push_neg
            exact ⟨h2.1, h2.2⟩
          rw [if_neg h2c] at h ⊢
          rw [if_neg (not_not_intro h2)]
          by_cases h3 : offer.kwh_remaining + EPS < kwh
          · rw [if_pos h3] at h ⊢
            simp_all
          · rw [if_neg h3] at h ⊢
            cases hbu : getRow db.users buyer_id with
            | none =>
                rw [hbu] at h
                simp_all
                split_ifs <;> first | rfl | linarith
            | some buyer =>
                rw [hbu] at h
                simp only [] at h ⊢
                cases hse : getRow db.users offer.seller_id with
                | none =>
                    rw [hse] at h
                    simp_all
                    split_ifs <;> first | rfl | linarith
                | some seller =>
                    rw [hse] at h
                    simp only [] at h ⊢
                    by_cases h5 : buyer.balance_eur + EPS <
                        round4 (kwh * offer.price_eur_per_kwh)
                    · rw [if_pos h5] at h ⊢
                      simp_all
                      split_ifs <;> first | rfl | linarith
                    · rw [if_neg h5] at h ⊢
                      exfalso
                      rw [getRow_setUser] at h
                      by_cases h6 : offer.seller_id = buyer_id
                      · rw [if_pos h6, hbu] at h
                        simp at h
                      · rw [if_neg h6, hse] at h
                        simp at h
        · have h2c : offer.status ≠ OfferStatus.active ∨ offer.kwh_remaining ≤ 0 := by
            by_cases hA : offer.status = OfferStatus.active
            · right
              by_contra hr
              push_neg at hr
              exact h2 ⟨hA, hr⟩
            · left
              exact hA
          rw [if_pos h2c] at h
          rw [if_pos h2c, if_pos h2]
          simp_all

theorem accept_offer_ok_validation (db : DB) (buyer_id offer_id : ℕ) (kwh : ℚ)
    (tx_hash : Option String) (now : ℤ) (trade : TradeR)
    (h : (accept_offer db buyer_id offer_id kwh tx_hash now).2 = .ok trade) :
    acceptValidationSpec db buyer_id offer_id kwh = none := by
  unfold accept_offer at h
  unfold acceptValidationSpec
  by_cases h1 : kwh ≤ 0
  · rw [if_pos h1] at h
    simp at h
  · rw [if_neg h1] at h
    rw [if_neg h1]
    cases hof : getRow db.offers offer_id with
    | none => rw [hof] at h; simp_all
    | some offer =>
        rw [hof] at h
        simp only [] at h ⊢
        by_cases h2 : offer.status = OfferStatus.active ∧ 0 < offer.kwh_remaining
        · have h2c : ¬(offer.status ≠ OfferStatus.active ∨ offer.kwh_remaining ≤ 0) := by
            push_neg
            exact ⟨h2.1, h2.2⟩
          rw [if_neg h2c] at h
          rw [if_neg (not_not_intro h2)]
          by_cases h3 : offer.kwh_remaining + EPS < kwh
          · rw [if_pos h3] at h
            simp at h
          · rw [if_neg h3] at h
            rw [if_neg h3]
            cases hbu : getRow db.users buyer_id with
            | none => rw [hbu] at h; simp_all
            | some buyer =>
                rw [hbu] at h
                simp only [] at h ⊢
                cases hse : getRow db.users offer.seller_id with
                | none => rw [hse] at h; simp_all
                | some seller =>
                    rw [hse] at h
                    simp only [] at h ⊢
                    by_cases h5 : buyer.balance_eur + EPS <
                        round4 (kwh * offer.price_eur_per_kwh)
                    · rw [if_pos h5] at h
                      simp at h
                    · rw [if_neg h5]
        · have h2c : offer.status ≠ OfferStatus.active ∨ offer.kwh_remaining ≤ 0 := by
            by_cases hA : offer.status = OfferStatus.active
            · right
              by_contra hr
              push_neg at hr
              exact h2 ⟨hA, hr⟩
            · left
              exact hA
          rw [if_pos h2c] at h
          simp at h

theorem accept_offer_ok_distinct
    (db : DB) (buyer_id offer_id : ℕ) (kwh : ℚ) (tx_hash : Option String) (now : ℤ)
    (offer : OfferR) (buyer seller : UserR)
    (hof : getRow db.offers offer_id = some offer)
    (hbu : getRow db.users buyer_id = some buyer)
    (hse : getRow db.users offer.seller_id = some seller)
    (hne : offer.seller_id ≠ buyer_id)
    (h1 : ¬ kwh ≤ 0)
    (h2 : offer.status = OfferStatus.active ∧ 0 < offer.kwh_remaining)
    (h3 : ¬ offer.kwh_remaining + EPS < kwh)
    (h5 : ¬ buyer.balance_eur + EPS < round4 (kwh * offer.price_eur_per_kwh)) :
    accept_offer db buyer_id offer_id kwh tx_hash now =
      (let total := round4 (kwh * offer.price_eur_per_kwh)
       let net := round4 (total - round4 (total * PLATFORM_FEE_RATE))
       let new_rem := round4 (offer.kwh_remaining - kwh)
       let offer2 :=
         if new_rem ≤ EPS then
           { offer with kwh_remaining := 0, status := OfferStatus.closed }
         else { offer with kwh_remaining := new_rem }
       let db3 := setOffer
         (setUser (setUser db buyer_id
             { buyer with balance_eur := round4 (buyer.balance_eur - total) })
           offer.seller_id { seller with balance_eur := round4 (seller.balance_eur + net) })
         offer_id offer2
       ({ db3 with trades := db3.trades ++ [⟨offer_id, buyer_id, round4 kwh, total, now, tx_hash⟩] },
        .ok ⟨offer_id, buyer_id, round4 kwh, total, now, tx_hash⟩)) := by
  have h2c : ¬(offer.status ≠ OfferStatus.active ∨ offer.kwh_remaining ≤ 0) := by
    push_neg
    exact ⟨h2.1, h2.2⟩
  unfold accept_offer
  rw [if_neg h1, hof]
  simp only []
  rw [if_neg h2c, if_neg h3, hbu]
  simp only []
  rw [hse]
  simp only []
  rw [if_neg h5]
  rw [getRow_setUser, if_neg hne, hse]

theorem accept_offer_ok_self
    (db : DB) (buyer_id offer_id : ℕ) (kwh : ℚ) (tx_hash : Option String) (now : ℤ)
    (offer : OfferR) (buyer : UserR)
    (hof : getRow db.offers offer_id = some offer)
    (hbu : getRow db.users buyer_id = some buyer)
    (heq : offer.seller_id = buyer_id)
    (h1 : ¬ kwh ≤ 0)
    (h2 : offer.status = OfferStatus.active ∧ 0 < offer.kwh_remaining)
    (h3 : ¬ offer.kwh_remaining + EPS < kwh)
    (h5 : ¬ buyer.balance_eur + EPS < round4 (kwh * offer.price_eur_per_kwh)) :
    accept_offer db buyer_id offer_id kwh tx_hash now =
      (let total := round4 (kwh * offer.price_eur_per_kwh)
       let net := round4 (total - round4 (total * PLATFORM_FEE_RATE))
       let bu1 : UserR := { buyer with balance_eur := round4 (buyer.balance_eur - total) }
       let new_rem := round4 (offer.kwh_remaining - kwh)
       let offer2 :=
         if new_rem ≤ EPS then
           { offer with kwh_remaining := 0, status := OfferStatus.closed }
         else { offer with kwh_remaining := new_rem }
       let db3 := setOffer
         (setUser (setUser db buyer_id bu1) offer.seller_id
           { bu1 with balance_eur := round4 (bu1.balance_eur + net) })
         offer_id offer2
       ({ db3 with trades := db3.trades ++ [⟨offer_id, buyer_id, round4 kwh, total, now, tx_hash⟩] },
        .ok ⟨offer_id, buyer_id, round4 kwh, total, now, tx_hash⟩)) := by
  have h2c : ¬(offer.status ≠ OfferStatus.active ∨ offer.kwh_remaining ≤ 0) := by
    push_neg
    exact ⟨h2.1, h2.2⟩
  have hse : getRow db.users offer.seller_id = some buyer := by
    rw [heq]
    exact hbu
  unfold accept_offer
  rw [if_neg h1, hof]
  simp only []
  rw [if_neg h2c, if_neg h3, hbu]
  simp only []
  rw [hse]
  simp only []
  rw [if_neg h5]
  rw [getRow_setUser, if_pos heq, hbu]
  rfl


theorem acceptValidationSpec_none_conditions
    (db : DB) (buyer_id offer_id : ℕ) (kwh : ℚ) (offer : OfferR) (buyer : UserR)
    (hof : getRow db.offers offer_id = some offer)
    (hbu : getRow db.users buyer_id = some buyer)
    (hv : acceptValidationSpec db buyer_id offer_id kwh = none) :
    ¬ kwh ≤ 0 ∧ (offer.status = OfferStatus.active ∧ 0 < offer.kwh_remaining) ∧
      ¬ offer.kwh_remaining + EPS < kwh ∧
      ¬ buyer.balance_eur + EPS < round4 (kwh * offer.price_eur_per_kwh) := by
  unfold acceptValidationSpec at hv
  by_cases h1 : kwh ≤ 0
  · rw [if_pos h1] at hv
    simp at hv
  · rw [if_neg h1, hof] at hv
    simp only [] at hv
    by_cases h2 : offer.status = OfferStatus.active ∧ 0 < offer.kwh_remaining
    · rw [if_neg (not_not_intro h2)] at hv
      by_cases h3 : offer.kwh_remaining + EPS < kwh
      · rw [if_pos h3] at hv
        simp at hv
      · rw [if_neg h3, hbu] at hv
        simp only [] at hv
        cases hse : getRow db.users offer.seller_id with
        | none => rw [hse] at hv; simp at hv
        | some seller =>
            rw [hse] at hv
            simp only [] at hv
            by_cases h5 : buyer.balance_eur + EPS < round4 (kwh * offer.price_eur_per_kwh)
            · rw [if_pos h5] at hv
              simp at hv
            · exact ⟨h1, h2, h3, h5⟩
    · rw [if_pos h2] at hv
      simp at hv

/-- C3: `accept_offer` performs its validations exactly in the specified
order — the error it reports is the first failing check of the six-step
sequence `acceptValidationSpec` written from the spec — and any validation
failure aborts with zero side effects: the returned state is the input
state, so balances, offers and trades are all unchanged and no trade row is
created. -/
theorem C3_validation_order_and_abort
    (db : DB) (buyer_id offer_id : ℕ) (kwh : ℚ) (tx_hash : Option String) (now : ℤ) :
    (∀ e, (accept_offer db buyer_id offer_id kwh tx_hash now).2 = .error e ↔
        acceptValidationSpec db buyer_id offer_id kwh = some e) ∧
    (∀ e, (accept_offer db buyer_id offer_id kwh tx_hash now).2 = .error e →
        (accept_offer db buyer_id offer_id kwh tx_hash now).1 = db) := by
  constructor
  · intro e
    constructor
    · intro h
      exact (accept_offer_error_char db buyer_id offer_id kwh tx_hash now e h).2
    · intro hv
      cases ha : (accept_offer db buyer_id offer_id kwh tx_hash now).2 with
      | error e' =>
          have h2 := (accept_offer_error_char db buyer_id offer_id kwh tx_hash now e' ha).2
          rw [hv] at h2
          obtain rfl : e = e' := by simpa using h2
          rfl
      | ok t =>
          have h2 := accept_offer_ok_validation db buyer_id offer_id kwh tx_hash now t ha
          rw [hv] at h2
          simp at h2
  · intro e h
    exact (accept_offer_error_char db buyer_id offer_id kwh tx_hash now e h).1

theorem C3_validation_order_and_abort_witness :
    (accept_offer emptyDB 1 1 1 none 0).2 = .error "Offer not found" ∧
      (accept_offer emptyDB 1 1 1 none 0).1 = emptyDB := by
  have h := C3_validation_order_and_abort emptyDB 1 1 1 none 0
  have hv : acceptValidationSpec emptyDB 1 1 1 = some "Offer not found" := by
    norm_num [acceptValidationSpec, emptyDB, getRow]
  have he := (h.1 "Offer not found").mpr hv
  exact ⟨he, h.2 "Offer not found" he⟩

theorem round4_nonneg_of_neg_eps_le {q : ℚ} (h : -EPS ≤ q) : 0 ≤ round4 q := by
  have h0 : round4 (-EPS) = 0 := by norm_num [round4, rhe, EPS]
  have hm := round4_mono h
  rw [h0] at hm
  exact hm

theorem getRow_mem {β : Type _} {l : List (ℕ × β)} {k : ℕ} {v : β}
    (h : getRow l k = some v) : (k, v) ∈ l := by
  induction l with
  | nil => simp [getRow] at h
  | cons p t ih =>
    obtain ⟨k', v'⟩ := p
    simp only [getRow] at h
    by_cases hk : k = k'
    · subst hk
      rw [if_pos rfl] at h
      obtain rfl : v' = v := by simpa using h
      exact List.mem_cons_self _ _
    · rw [if_neg hk] at h
      exact List.mem_cons_of_mem _ (ih h)

theorem fee_le_total {total : ℚ} (h : 0 ≤ total) (ht : isQ4 total) :
    round4 (total * PLATFORM_FEE_RATE) ≤ total := by
  have h1 : total * PLATFORM_FEE_RATE ≤ total := by
    rw [PLATFORM_FEE_RATE]
    nlinarith
  calc round4 (total * PLATFORM_FEE_RATE) ≤ round4 total := round4_mono h1
    _ = total := round4_eq_self ht

theorem fee_nonneg {total : ℚ} (h : 0 ≤ total) :
    0 ≤ round4 (total * PLATFORM_FEE_RATE) := by
  apply round4_nonneg
  rw [PLATFORM_FEE_RATE]
  nlinarith

theorem net_nonneg {total : ℚ} (h : 0 ≤ total) (ht : isQ4 total) :
    0 ≤ round4 (total - round4 (total * PLATFORM_FEE_RATE)) := by
  apply round4_nonneg
  have := fee_le_total h ht
  linarith

theorem stateInv_emptyDB : StateInv emptyDB := by
  constructor <;> intro p hp <;> simp [emptyDB] at hp

theorem stateInv_create_user (db : DB) (e w : String) (r : UserRole) (h : StateInv db) :
    StateInv (create_user db e w r).1 := by
  obtain ⟨hu, ho⟩ := h
  constructor
  · intro p hp
    simp only [create_user, List.mem_append, List.mem_singleton] at hp
    rcases hp with hp | hp
    · exact hu p hp
    · simp [hp]
  · intro p hp
    exact ho p hp

theorem stateInv_fund (db db' : DB) (uid : ℕ) (a b : ℚ)
    (h : StateInv db) (hf : fund_user db uid a = .ok (db', b)) : StateInv db' := by
  obtain ⟨hu, ho⟩ := h
  unfold fund_user at hf
  by_cases ha : a ≤ 0
  · rw [if_pos ha] at hf
    simp at hf
  · rw [if_neg ha] at hf
    cases hg : getRow db.users uid with
    | none => rw [hg] at hf; simp at hf
    | some u =>
        rw [hg] at hf
        simp only [Except.ok.injEq, Prod.mk.injEq] at hf
        obtain ⟨hdb, hb⟩ := hf
        subst hdb
        constructor
        · intro p hp
          rcases mem_replace hp with hpu | hp
          · rw [hpu]
            have hub : 0 ≤ u.balance_eur := hu _ (getRow_mem hg)
            exact round4_nonneg (by linarith)
          · exact hu p hp
        · intro p hp
          exact ho p hp

theorem stateInv_record (db db' : DB) (uid : ℕ) (pk ck : ℚ) (ts : ℤ)
    (h : StateInv db) (hf : record_meter_sample db uid pk ck ts = .ok db') : StateInv db' := by
  obtain ⟨hu, ho⟩ := h
  unfold record_meter_sample at hf
  by_cases ha : pk < 0 ∨ ck < 0
  · rw [if_pos ha] at hf
    simp at hf
  · rw [if_neg ha] at hf
    cases hg : getRow db.users uid with
    | none => rw [hg] at hf; simp at hf
    | some u =>
        rw [hg] at hf
        simp only [Except.ok.injEq] at hf
        subst hf
        exact ⟨fun p hp => hu p hp, fun p hp => ho p hp⟩

theorem stateInv_create_offer (db db' : DB) (sid : ℕ) (kwh price : ℚ) (ts : Option ℤ)
    (now : ℤ) (oid : ℕ) (o : OfferR) (h : StateInv db) (hk : 0 < round4 kwh)
    (hc : create_offer db sid kwh price ts now = .ok (db', oid, o)) : StateInv db' := by
  obtain ⟨hu, ho⟩ := h
  unfold create_offer at hc
  cases hg : getRow db.users sid with
  | none => rw [hg] at hc; simp at hc
  | some seller =>
      rw [hg] at hc
      simp only [] at hc
      by_cases hr : seller.role ≠ UserRole.producer ∧ seller.role ≠ UserRole.both
      · rw [if_pos hr] at hc
        simp at hc
      · rw [if_neg hr] at hc
        by_cases hp2 : kwh ≤ 0 ∨ price ≤ 0
        · rw [if_pos hp2] at hc
          simp at hc
        · rw [if_neg hp2] at hc
          simp only [Except.ok.injEq, Prod.mk.injEq] at hc
          push_neg at hp2
          obtain ⟨hdb, -, -⟩ := hc
          subst hdb
          constructor
          · intro p hp
            exact hu p hp
          · intro p hp
            rcases List.mem_append.mp hp with hp | hp
            · exact ho p hp
            · simp only [List.mem_singleton] at hp
              rw [hp]
              refine ⟨round4_nonneg hp2.2.le, isQ4_round4 _, hk.le, le_refl _, ?_⟩
              constructor
              · intro habs
                exact absurd habs (by simp)
              · intro h0
                exact absurd h0 hk.ne'

theorem acceptValidationSpec_none_elim (db : DB) (buyer_id offer_id : ℕ) (kwh : ℚ)
    (hv : acceptValidationSpec db buyer_id offer_id kwh = none) :
    ∃ offer buyer seller, getRow db.offers offer_id = some offer ∧
      getRow db.users buyer_id = some buyer ∧
      getRow db.users offer.seller_id = some seller ∧ ¬ kwh ≤ 0 ∧
      (offer.status = OfferStatus.active ∧ 0 < offer.kwh_remaining) ∧
      ¬ offer.kwh_remaining + EPS < kwh ∧
      ¬ buyer.balance_eur + EPS < round4 (kwh * offer.price_eur_per_kwh) := by
  unfold acceptValidationSpec at hv
  by_cases h1 : kwh ≤ 0
  · rw [if_pos h1] at hv
    simp at hv
  · rw [if_neg h1] at hv
    cases hof : getRow db.offers offer_id with
    | none => rw [hof] at hv; simp at hv
    | some offer =>
        rw [hof] at hv
        simp only [] at hv
        by_cases h2 : offer.status = OfferStatus.active ∧ 0 < offer.kwh_remaining
        · rw [if_neg (not_not_intro h2)] at hv
          by_cases h3 : offer.kwh_remaining + EPS < kwh
          · rw [if_pos h3] at hv
            simp at hv
          · rw [if_neg h3] at hv
            cases hbu : getRow db.users buyer_id with
            | none => rw [hbu] at hv; simp at hv
            | some buyer =>
                rw [hbu] at hv
                simp only [] at hv
                cases hse : getRow db.users offer.seller_id with
                | none => rw [hse] at hv; simp at hv
                | some seller =>
                    rw [hse] at hv
                    simp only [] at hv
                    by_cases h5 : buyer.balance_eur + EPS <
                        round4 (kwh * offer.price_eur_per_kwh)
                    · rw [if_pos h5] at hv
                      simp at hv
                    · exact ⟨offer, buyer, seller, rfl, rfl, hse, h1, h2, h3, h5⟩
        · rw [if_pos h2] at hv
          simp at hv

theorem stateInv_settled (db : DB) (bid sid oid : ℕ) (bu su : UserR) (offer2 : OfferR)
    (tr : TradeR) (h : StateInv db) (hbu_ok : 0 ≤ bu.balance_eur)
    (hsu_ok : 0 ≤ su.balance_eur) (ho2 : OfferInvA offer2) :
    StateInv { setOffer (setUser (setUser db bid bu) sid su) oid offer2 with
        trades := (setOffer (setUser (setUser db bid bu) sid su) oid offer2).trades ++ [tr] } := by
  obtain ⟨hu, ho⟩ := h
  constructor
  · intro p hp
    rcases mem_replace hp with h1 | hp
    · rw [h1]
      exact hsu_ok
    · rcases mem_replace hp with h1 | hp
      · rw [h1]
        exact hbu_ok
      · exact hu p hp
  · intro p hp
    rcases mem_replace hp with h1 | hp
    · rw [h1]
      exact ho2
    · exact ho p hp

theorem stateInv_accept (db : DB) (bid oid : ℕ) (kwh : ℚ) (tx : Option String) (now : ℤ)
    (h : StateInv db) : StateInv (accept_offer db bid oid kwh tx now).1 := by
  cases ha : (accept_offer db bid oid kwh tx now).2 with
  | error e =>
      rw [(accept_offer_error_char db bid oid kwh tx now e ha).1]
      exact h
  | ok t =>
      have hv := accept_offer_ok_validation db bid oid kwh tx now t ha
      obtain ⟨offer, buyer, seller, hof, hbu, hse, h1, h2, h3, h5⟩ :=
        acceptValidationSpec_none_elim db bid oid kwh hv
      have hoin : OfferInvA offer := h.2 _ (getRow_mem hof)
      have hk : 0 < kwh := not_le.mp h1
      have htot : 0 ≤ round4 (kwh * offer.price_eur_per_kwh) :=
        round4_nonneg (mul_nonneg hk.le hoin.1)
      have hnet : 0 ≤ round4 (round4 (kwh * offer.price_eur_per_kwh) -
          round4 (round4 (kwh * offer.price_eur_per_kwh) * PLATFORM_FEE_RATE)) :=
        net_nonneg htot (isQ4_round4 _)
      have hbu0 : 0 ≤ round4 (buyer.balance_eur - round4 (kwh * offer.price_eur_per_kwh)) := by
        apply round4_nonneg_of_neg_eps_le
        push_neg at h5
        linarith
      have hrem' : OfferInvA (if round4 (offer.kwh_remaining - kwh) ≤ EPS then
            { offer with kwh_remaining := 0, status := OfferStatus.closed }
          else { offer with kwh_remaining := round4 (offer.kwh_remaining - kwh) }) := by
        obtain ⟨hpr, hq4, h0r, hrt, hcl⟩ := hoin
        by_cases hle : round4 (offer.kwh_remaining - kwh) ≤ EPS
        · rw [if_pos hle]
          exact ⟨hpr, isQ4_zero, le_refl 0, by simp only []; linarith, by simp⟩
        · rw [if_neg hle]
          push_neg at hle
          have hlt : 0 < round4 (offer.kwh_remaining - kwh) :=
            lt_trans (by norm_num [EPS]) hle
          have hub : round4 (offer.kwh_remaining - kwh) ≤ offer.kwh_remaining := by
            calc round4 (offer.kwh_remaining - kwh) ≤ round4 offer.kwh_remaining :=
                round4_mono (by linarith)
              _ = offer.kwh_remaining := round4_eq_self hq4
          refine ⟨hpr, isQ4_round4 _, hlt.le, by simp only []; linarith, ?_⟩
          constructor
          · intro hst
            simp only [] at hst
            rw [h2.1] at hst
            exact absurd hst (by simp)
          · intro h0
            simp only [] at h0
            exact absurd h0 hlt.ne'
      by_cases heq : offer.seller_id = bid
      · rw [accept_offer_ok_self db bid oid kwh tx now offer buyer hof hbu heq h1 h2 h3 h5]
        simp only []
        exact stateInv_settled db bid offer.seller_id oid _ _ _ _ h hbu0
          (round4_nonneg (add_nonneg hbu0 hnet)) hrem'
      · rw [accept_offer_ok_distinct db bid oid kwh tx now offer buyer seller hof hbu hse heq
          h1 h2 h3 h5]
        simp only []
        have hs0 : 0 ≤ seller.balance_eur := h.1 _ (getRow_mem hse)
        exact stateInv_settled db bid offer.seller_id oid _ _ _ _ h hbu0
          (round4_nonneg (add_nonneg hs0 hnet)) hrem'

theorem reach_stateInv (db : DB) (h : Reach db) : StateInv db := by
  induction h with
  | init => exact stateInv_emptyDB
  | step_create_user db e w r _ ih => exact stateInv_create_user db e w r ih
  | step_fund db db' uid a b _ hf ih => exact stateInv_fund db db' uid a b ih hf
  | step_record db db' uid p c ts _ hf ih => exact stateInv_record db db' uid p c ts ih hf
  | step_create_offer db db' sid kwh price ts now oid o _ hk hc ih =>
      exact stateInv_create_offer db db' sid kwh price ts now oid o ih hk hc
  | step_accept db bid oid kwh tx now _ ih => exact stateInv_accept db bid oid kwh tx now ih

/-- C2 (amended): in every state reachable from the empty store by
`create_user`, `fund_user`, `record_meter_sample`, `create_offer` and
`accept_offer`, where each `create_offer` is called with a quantity whose
4-decimal rounding is strictly positive, every offer satisfies
`0 ≤ remaining ≤ total` and is `closed` exactly when `remaining = 0`
(so also within the 1e-9 tolerance); in particular such a creation yields
an active offer satisfying the invariant and `accept_offer` preserves it. -/
theorem C2_offer_invariant (db : DB) (oid : ℕ) (o : OfferR)
    (hr : Reach db) (ho : getRow db.offers oid = some o) :
    0 ≤ o.kwh_remaining ∧ o.kwh_remaining ≤ o.kwh_total ∧
      (o.status = OfferStatus.closed ↔ o.kwh_remaining = 0) := by
  have h := reach_stateInv db hr
  have hx := h.2 _ (getRow_mem ho)
  exact ⟨hx.2.2.1, hx.2.2.2.1, hx.2.2.2.2⟩

theorem C2_offer_invariant_witness :
    0 ≤ (2 : ℚ) ∧ (2 : ℚ) ≤ 2 ∧ (OfferStatus.active = OfferStatus.closed ↔ (2 : ℚ) = 0) := by
  have r1 : Reach (create_user emptyDB "a" "w" UserRole.producer).1 :=
    Reach.step_create_user _ _ _ _ Reach.init
  have hc : create_offer (create_user emptyDB "a" "w" UserRole.producer).1 1 2 (1/2) none 0 =
      .ok (dbC2W, 1, ⟨1, 2, 2, 1/2, OfferStatus.active, 0⟩) := by
    norm_num [create_offer, create_user, emptyDB, getRow, dbC2W, round4, rhe]
  have r2 : Reach dbC2W :=
    Reach.step_create_offer _ _ _ _ _ _ _ _ _ r1 (by norm_num [round4, rhe]) hc
  exact C2_offer_invariant dbC2W 1 ⟨1, 2, 2, 1/2, OfferStatus.active, 0⟩ r2
    (by norm_num [dbC2W, getRow])

theorem C2_create_offer_counterexample :
    Except.map (fun r => (r.2.2.status, r.2.2.kwh_remaining))
        (create_offer (create_user emptyDB "a" "w" UserRole.producer).1
          (create_user emptyDB "a" "w" UserRole.producer).2 (1/100000) 1 none 0) =
      Except.ok (OfferStatus.active, (0 : ℚ)) ∧
    ¬(OfferStatus.active = OfferStatus.closed ↔ (0 : ℚ) = 0) := by
  constructor
  · norm_num [create_offer, create_user, emptyDB, getRow, round4, rhe, Except.map]
  · simp

/-- C7: in every state reachable from the empty store by the core's
mutating operations (account creation with zero balance, funding of a
positive amount, metering, offer creation and settlement), every account's
balance is non-negative. -/
theorem C7_balance_nonneg (db : DB) (uid : ℕ) (u : UserR)
    (hr : Reach db) (hu : getRow db.users uid = some u) : 0 ≤ u.balance_eur :=
  (reach_stateInv db hr).1 _ (getRow_mem hu)

theorem C7_balance_nonneg_witness :
    0 ≤ ((⟨"a", "w", UserRole.consumer, 5⟩ : UserR)).balance_eur := by
  have r1 : Reach (create_user emptyDB "a" "w" UserRole.consumer).1 :=
    Reach.step_create_user _ _ _ _ Reach.init
  have hf : fund_user (create_user emptyDB "a" "w" UserRole.consumer).1 1 5 =
      .ok (dbC7W, 5) := by
    norm_num [fund_user, create_user, emptyDB, getRow, setUser, dbC7W, round4, rhe]
  have r2 : Reach dbC7W := Reach.step_fund _ _ _ _ _ r1 hf
  exact C7_balance_nonneg dbC7W 1 _ r2 (by norm_num [dbC7W, getRow])

theorem C1_self_trade_counterexample :
    (accept_offer dbSelf 1 7 5 none 0).2 = .ok ⟨7, 1, 5, 1, 0, none⟩ ∧
    getRow (accept_offer dbSelf 1 7 5 none 0).1.users 1 =
      some ⟨"seller", "w", UserRole.both, 99/10⟩ ∧
    ¬((10 : ℚ) - 99/10 = 1) := by
  refine ⟨?_, ?_, by norm_num⟩
  · norm_num [accept_offer, dbSelf, getRow, round4, rhe, EPS, PLATFORM_FEE_RATE,
      setUser, setOffer]
  · norm_num [accept_offer, dbSelf, getRow, round4, rhe, EPS, PLATFORM_FEE_RATE,
      setUser, setOffer]

/-- C1 (amended): for every successful settlement in which the buyer and the
seller are distinct accounts and both stored balances lie on the 4-decimal
grid, the buyer's balance decreases by exactly
`total = round4 (kwh * price)` and the seller's balance increases by exactly
`total - fee`, `fee = round4 (total * feeRate)`; the deltas are exact.  (As
stated over all settlements the claim fails when a buyer accepts their own
offer — see the counterexample, where the single account's balance drops by
the fee only.) -/
theorem C1_settlement_exact_deltas
    (db : DB) (buyer_id offer_id : ℕ) (kwh : ℚ) (tx : Option String) (now : ℤ)
    (offer : OfferR) (buyer seller : UserR) (trade : TradeR)
    (hof : getRow db.offers offer_id = some offer)
    (hbu : getRow db.users buyer_id = some buyer)
    (hse : getRow db.users offer.seller_id = some seller)
    (hne : offer.seller_id ≠ buyer_id)
    (hqb : isQ4 buyer.balance_eur) (hqs : isQ4 seller.balance_eur)
    (hok : (accept_offer db buyer_id offer_id kwh tx now).2 = .ok trade) :
    trade.total_eur = round4 (kwh * offer.price_eur_per_kwh) ∧
    getRow (accept_offer db buyer_id offer_id kwh tx now).1.users buyer_id =
      some { buyer with balance_eur := buyer.balance_eur - trade.total_eur } ∧
    getRow (accept_offer db buyer_id offer_id kwh tx now).1.users offer.seller_id =
      some { seller with balance_eur := seller.balance_eur +
        (trade.total_eur - round4 (trade.total_eur * PLATFORM_FEE_RATE)) } := by
  have hv := accept_offer_ok_validation db buyer_id offer_id kwh tx now trade hok
  obtain ⟨offer', buyer', seller', hof', hbu', hse', h1, h2, h3, h5⟩ :=
    acceptValidationSpec_none_elim db buyer_id offer_id kwh hv
  rw [hof] at hof'
  obtain rfl : offer = offer' := Option.some.inj hof'
  rw [hbu] at hbu'
  obtain rfl : buyer = buyer' := Option.some.inj hbu'
  have heqn := accept_offer_ok_distinct db buyer_id offer_id kwh tx now offer buyer seller
    hof hbu hse hne h1 h2 h3 h5
  rw [heqn] at hok
  simp only [] at hok
  obtain rfl : (⟨offer_id, buyer_id, round4 kwh, round4 (kwh * offer.price_eur_per_kwh),
      now, tx⟩ : TradeR) = trade := by
    simpa using hok
  refine ⟨rfl, ?_, ?_⟩
  · rw [heqn]
    simp only []
    rw [setOffer_users, getRow_setUser, if_neg (fun hh => hne hh.symm),
      getRow_setUser, if_pos rfl, hbu]
    simp only [Option.map_some']
    rw [round4_eq_self (isQ4_sub hqb (isQ4_round4 _))]
  · rw [heqn]
    simp only []
    rw [setOffer_users, getRow_setUser, if_pos rfl, getRow_setUser, if_neg hne, hse]
    simp only [Option.map_some']
    rw [round4_eq_self (isQ4_sub (isQ4_round4 _) (isQ4_round4 _)),
      round4_eq_self (isQ4_add hqs (isQ4_sub (isQ4_round4 _) (isQ4_round4 _)))]

theorem C1_settlement_exact_deltas_witness :
    ((⟨7, 2, 5, 1, 0, none⟩ : TradeR)).total_eur = round4 (5 * ((1 : ℚ)/5)) ∧
    getRow (accept_offer dbTwo 2 7 5 none 0).1.users 2 =
      some ⟨"buyer", "w", UserRole.consumer,
        5 - ((⟨7, 2, 5, 1, 0, none⟩ : TradeR)).total_eur⟩ ∧
    getRow (accept_offer dbTwo 2 7 5 none 0).1.users 1 =
      some ⟨"seller", "w", UserRole.both,
        0 + (((⟨7, 2, 5, 1, 0, none⟩ : TradeR)).total_eur -
          round4 (((⟨7, 2, 5, 1, 0, none⟩ : TradeR)).total_eur * PLATFORM_FEE_RATE))⟩ :=
  C1_settlement_exact_deltas dbTwo 2 7 5 none 0 ⟨1, 10, 10, 1/5, OfferStatus.active, 0⟩
    ⟨"buyer", "w", UserRole.consumer, 5⟩ ⟨"seller", "w", UserRole.both, 0⟩ ⟨7, 2, 5, 1, 0, none⟩
    (by norm_num [dbTwo, getRow]) (by norm_num [dbTwo, getRow]) (by norm_num [dbTwo, getRow])
    (by decide) ⟨50000, by norm_num⟩ ⟨0, by norm_num⟩
    (by norm_num [accept_offer, dbTwo, getRow, round4, rhe, EPS, PLATFORM_FEE_RATE,
      setUser, setOffer])

/-- C10: when a buyer accepts their own offer and all validations pass, the
buyer and seller rows alias one account: its final balance is the initial
balance minus exactly the fee (initial - total + net), while the offer's
remaining still decreases by the purchased kwh and a trade for the full
total is still appended. -/
theorem C10_self_trade
    (db : DB) (buyer_id offer_id : ℕ) (kwh : ℚ) (tx : Option String) (now : ℤ)
    (offer : OfferR) (acct : UserR) (trade : TradeR)
    (hof : getRow db.offers offer_id = some offer)
    (hbu : getRow db.users buyer_id = some acct)
    (heq : offer.seller_id = buyer_id)
    (hqb : isQ4 acct.balance_eur) (hqr : isQ4 offer.kwh_remaining) (hqk : isQ4 kwh)
    (hok : (accept_offer db buyer_id offer_id kwh tx now).2 = .ok trade) :
    trade.total_eur = round4 (kwh * offer.price_eur_per_kwh) ∧
    getRow (accept_offer db buyer_id offer_id kwh tx now).1.users buyer_id =
      some { acct with balance_eur := (acct.balance_eur -
        round4 (trade.total_eur * PLATFORM_FEE_RATE)) } ∧
    (getRow (accept_offer db buyer_id offer_id kwh tx now).1.offers offer_id).map
        OfferR.kwh_remaining = some (offer.kwh_remaining - kwh) ∧
    (accept_offer db buyer_id offer_id kwh tx now).1.trades = db.trades ++ [trade] := by
  have hv := accept_offer_ok_validation db buyer_id offer_id kwh tx now trade hok
  obtain ⟨offer', buyer', seller', hof', hbu', hse', h1, h2, h3, h5⟩ :=
    acceptValidationSpec_none_elim db buyer_id offer_id kwh hv
  rw [hof] at hof'
  obtain rfl : offer = offer' := Option.some.inj hof'
  rw [hbu] at hbu'
  obtain rfl : acct = buyer' := Option.some.inj hbu'
  have heqn := accept_offer_ok_self db buyer_id offer_id kwh tx now offer acct
    hof hbu heq h1 h2 h3 h5
  rw [heqn] at hok
  simp only [] at hok
  obtain rfl : (⟨offer_id, buyer_id, round4 kwh, round4 (kwh * offer.price_eur_per_kwh),
      now, tx⟩ : TradeR) = trade := by
    simpa using hok
  have hsub : round4 (acct.balance_eur - round4 (kwh * offer.price_eur_per_kwh)) =
      acct.balance_eur - round4 (kwh * offer.price_eur_per_kwh) :=
    round4_eq_self (isQ4_sub hqb (isQ4_round4 _))
  have hremq : isQ4 (offer.kwh_remaining - kwh) := isQ4_sub hqr hqk
  have hrem : round4 (offer.kwh_remaining - kwh) = offer.kwh_remaining - kwh :=
    round4_eq_self hremq
  have hrem0 : 0 ≤ offer.kwh_remaining - kwh := by
    apply isQ4_nonneg_of_neg_eps_le hremq
    push_neg at h3
    linarith
  refine ⟨rfl, ?_, ?_, ?_⟩
  · rw [heqn]
    simp only []
    rw [setOffer_users, getRow_setUser, if_pos heq.symm]
    rw [heq, getRow_setUser, if_pos rfl, hbu]
    simp only [Option.map_some']
    rw [hsub]
    rw [round4_eq_self (isQ4_add (isQ4_sub hqb (isQ4_round4 _)) (isQ4_round4 _))]
    rw [round4_eq_self (isQ4_sub (isQ4_round4 _) (isQ4_round4 _))]
    have hb : acct.balance_eur - round4 (kwh * offer.price_eur_per_kwh) +
        (round4 (kwh * offer.price_eur_per_kwh) -
          round4 (round4 (kwh * offer.price_eur_per_kwh) * PLATFORM_FEE_RATE)) =
        acct.balance_eur -
          round4 (round4 (kwh * offer.price_eur_per_kwh) * PLATFORM_FEE_RATE) := by
      ring
    rw [hb]
  · rw [heqn]
    simp only []
    rw [getRow_setOffer, if_pos rfl, setUser_offers, setUser_offers, hof]
    simp only [Option.map_some']
    by_cases hle : round4 (offer.kwh_remaining - kwh) ≤ EPS
    · rw [if_pos hle]
      simp only []
      rw [hrem] at hle
      have := isQ4_eq_zero_of_le_eps hremq hrem0 hle
      rw [this]
    · rw [if_neg hle]
      simp only []
      rw [hrem]
  · rw [heqn]
    simp only []
    rw [setOffer_trades, setUser_trades, setUser_trades]

theorem C10_self_trade_witness :
    ((⟨7, 1, 5, 1, 0, none⟩ : TradeR)).total_eur = round4 (5 * ((1 : ℚ)/5)) ∧
    getRow (accept_offer dbSelf 1 7 5 none 0).1.users 1 =
      some ⟨"seller", "w", UserRole.both,
        10 - round4 (((⟨7, 1, 5, 1, 0, none⟩ : TradeR)).total_eur * PLATFORM_FEE_RATE)⟩ ∧
    (getRow (accept_offer dbSelf 1 7 5 none 0).1.offers 7).map OfferR.kwh_remaining =
      some ((10 : ℚ) - 5) ∧
    (accept_offer dbSelf 1 7 5 none 0).1.trades = dbSelf.trades ++ [⟨7, 1, 5, 1, 0, none⟩] :=
  C10_self_trade dbSelf 1 7 5 none 0 ⟨1, 10, 10, 1/5, OfferStatus.active, 0⟩
    ⟨"seller", "w", UserRole.both, 10⟩ ⟨7, 1, 5, 1, 0, none⟩
    (by norm_num [dbSelf, getRow]) (by norm_num [dbSelf, getRow]) rfl
    ⟨100000, by norm_num⟩ ⟨100000, by norm_num⟩ ⟨50000, by norm_num⟩
    (by norm_num [accept_offer, dbSelf, getRow, round4, rhe, EPS, PLATFORM_FEE_RATE,
      setUser, setOffer])

theorem surplus_filter_mono (l : List MeterSampleR) (uid : ℕ) (s1 s2 : ℤ) (h : s1 ≤ s2) :
    ((l.filter (fun m => m.user_id = uid ∧ s2 ≤ m.ts)).map
      (fun m => max 0 (m.production_kwh - m.consumption_kwh))).sum ≤
    ((l.filter (fun m => m.user_id = uid ∧ s1 ≤ m.ts)).map
      (fun m => max 0 (m.production_kwh - m.consumption_kwh))).sum := by
  induction l with
  | nil => simp
  | cons a t ih =>
      by_cases h2 : a.user_id = uid ∧ s2 ≤ a.ts
      · have h1 : a.user_id = uid ∧ s1 ≤ a.ts := ⟨h2.1, le_trans h h2.2⟩
        simp only [List.filter_cons]
        rw [if_pos (by simpa using h2), if_pos (by simpa using h1)]
        simp only [List.map_cons, List.sum_cons]
        linarith [ih]
      · by_cases h1 : a.user_id = uid ∧ s1 ≤ a.ts
        · simp only [List.filter_cons]
          rw [if_neg (by simpa using h2), if_pos (by simpa using h1)]
          simp only [List.map_cons, List.sum_cons]
          have h0 : (0 : ℚ) ≤ max 0 (a.production_kwh - a.consumption_kwh) := le_max_left _ _
          linarith [ih]
        · simp only [List.filter_cons]
          rw [if_neg (by simpa using h2), if_neg (by simpa using h1)]
          exact ih

theorem compute_surplus_eq_filter_sum (db : DB) (uid : ℕ) (hours now : ℤ) :
    compute_surplus_last_hours db uid hours now =
      round4 (((db.samples.filter
          (fun m => m.user_id = uid ∧ now - hours * 3600 ≤ m.ts)).map
        (fun m => max 0 (m.production_kwh - m.consumption_kwh))).sum) := by
  unfold compute_surplus_last_hours list_meter_series
  simp only []
  congr 1
  have hperm :
      (((db.samples.filter (fun m => m.user_id = uid ∧ now - hours * 3600 ≤ m.ts)).map
          (fun m => (m.ts, m.production_kwh, m.consumption_kwh))).mergeSort
        (fun a b => decide (a.1 ≤ b.1))).Perm
      ((db.samples.filter (fun m => m.user_id = uid ∧ now - hours * 3600 ≤ m.ts)).map
          (fun m => (m.ts, m.production_kwh, m.consumption_kwh))) :=
    List.mergeSort_perm _ _
  rw [(hperm.map (fun r => max 0 (r.2.1 - r.2.2))).sum_eq]
  rw [List.map_map]
  rfl

/-- C5: for every hour, the provider multiplier is the multiplier of the
first schedule interval `[start, end)` containing the hour — the implicit
default 1.0 when no interval contains it (`scheduleFirstMatch` is the
spec's first-match contract); when the hour equals the once-chosen surge
hour the surge multiplier replaces (does not compound with) the schedule
multiplier, and otherwise the schedule multiplier is used unchanged; and
the provider price equals `round4 (base_price * multiplier)`. -/
theorem C5_provider_pricing (schedule : List (ℤ × ℤ × ℚ)) (surge : Option SurgeWindow)
    (hour : ℤ) (base : ℚ) :
    schedule_mult schedule hour = scheduleFirstMatch schedule hour ∧
    (∀ w, surge = some w → w.hour = hour →
      provider_multiplier schedule surge hour = w.multiplier) ∧
    (∀ w, surge = some w → w.hour ≠ hour →
      provider_multiplier schedule surge hour = schedule_mult schedule hour) ∧
    (surge = none → provider_multiplier schedule surge hour = schedule_mult schedule hour) ∧
    provider_price base schedule surge hour =
      round4 (base * provider_multiplier schedule surge hour) := by
  refine ⟨?_, ?_, ?_, ?_, rfl⟩
  · induction schedule with
    | nil => rfl
    | cons e rest ih =>
        obtain ⟨s0, e0, m0⟩ := e
        by_cases hc : s0 ≤ hour ∧ hour < e0
        · rw [schedule_mult, if_pos hc]
          unfold scheduleFirstMatch
          rw [List.find?_cons_of_pos _ (by simpa using hc)]
        · rw [schedule_mult, if_neg hc]
          unfold scheduleFirstMatch at ih ⊢
          rw [List.find?_cons_of_neg _ (by simpa using hc)]
          exact ih
  · intro w hw hwh
    subst hw
    simp only [provider_multiplier]
    rw [if_pos hwh]
  · intro w hw hwh
    subst hw
    simp only [provider_multiplier]
    rw [if_neg hwh]
  · intro hn
    subst hn
    rfl

theorem C5_provider_pricing_witness :
    schedule_mult [((0 : ℤ), (8 : ℤ), (1 : ℚ)/2), (8, 20, 3/2)] 12 =
      scheduleFirstMatch [((0 : ℤ), (8 : ℤ), (1 : ℚ)/2), (8, 20, 3/2)] 12 ∧
    provider_multiplier [((0 : ℤ), (8 : ℤ), (1 : ℚ)/2), (8, 20, 3/2)]
      (some ⟨12, 3⟩) 12 = 3 := by
  have h := C5_provider_pricing [((0 : ℤ), (8 : ℤ), (1 : ℚ)/2), (8, 20, 3/2)]
    (some ⟨12, 3⟩) 12 2
  exact ⟨h.1, h.2.1 ⟨12, 3⟩ rfl rfl⟩

/-- C6: the windowed surplus equals the 4-decimal rounding of the sum, over
the samples in the trailing window, of `max 0 (production - consumption)`
taken per sample; and for a fixed sample set and fixed current time it is
monotone non-decreasing in the window length. -/
theorem C6_windowed_surplus (db : DB) (uid : ℕ) (now : ℤ) :
    (∀ hours : ℤ, compute_surplus_last_hours db uid hours now =
      round4 (((db.samples.filter
          (fun m => m.user_id = uid ∧ now - hours * 3600 ≤ m.ts)).map
        (fun m => max 0 (m.production_kwh - m.consumption_kwh))).sum)) ∧
    (∀ h1 h2 : ℤ, h1 ≤ h2 →
      compute_surplus_last_hours db uid h1 now ≤ compute_surplus_last_hours db uid h2 now) := by
  constructor
  · intro hours
    exact compute_surplus_eq_filter_sum db uid hours now
  · intro h1 h2 hh
    rw [compute_surplus_eq_filter_sum, compute_surplus_eq_filter_sum]
    apply round4_mono
    apply surplus_filter_mono
    have : h1 * 3600 ≤ h2 * 3600 := by nlinarith
    omega

theorem C6_windowed_surplus_witness :
    compute_surplus_last_hours emptyDB 1 1 0 ≤ compute_surplus_last_hours emptyDB 1 2 0 :=
  (C6_windowed_surplus emptyDB 1 0).2 1 2 (by norm_num)

/-- C8: recording a meter sample fails when either quantity is negative (in
that order, checked first) or when the account does not exist; on success it
persists exactly one new immutable sample at the end of the store, whose
timestamp is the caller's `ts` or defaults to "now" when omitted. -/
theorem C8_record_meter_sample (db : DB) (uid : ℕ) (p c : ℚ) (ts : Option ℤ) (now : ℤ) :
    (p < 0 ∨ c < 0 → post_meter_sample db uid p c ts now =
      .error "Energy values must be non-negative") ∧
    (getRow db.users uid = none → ¬(p < 0 ∨ c < 0) →
      post_meter_sample db uid p c ts now = .error "User not found") ∧
    (∀ u, getRow db.users uid = some u → ¬(p < 0 ∨ c < 0) →
      post_meter_sample db uid p c ts now =
        .ok { db with samples := db.samples ++ [⟨uid, p, c, ts.getD now⟩] }) := by
  refine ⟨?_, ?_, ?_⟩
  · intro h
    unfold post_meter_sample record_meter_sample
    rw [if_pos h]
  · intro hu h
    unfold post_meter_sample record_meter_sample
    rw [if_neg h, hu]
  · intro u hu h
    unfold post_meter_sample record_meter_sample
    rw [if_neg h, hu]

theorem C8_record_meter_sample_witness :
    post_meter_sample dbC7W 1 2 1 none 42 =
      .ok { dbC7W with samples := dbC7W.samples ++ [⟨1, 2, 1, 42⟩] } :=
  (C8_record_meter_sample dbC7W 1 2 1 none 42).2.2 ⟨"a", "w", UserRole.consumer, 5⟩
    (by norm_num [dbC7W, getRow]) (by norm_num)

theorem priceLe_trans : ∀ a b c : MarketItemOut, priceLe a b → priceLe b c → priceLe a c := by
  intro a b c hab hbc
  simp only [priceLe, decide_eq_true_eq] at *
  exact le_trans hab hbc

theorem priceLe_total : ∀ a b : MarketItemOut, priceLe a b || priceLe b a := by
  intro a b
  simp only [priceLe]
  rcases le_total a.price_eur_per_kwh b.price_eur_per_kwh with h | h
  · simp [h]
  · simp [h]

theorem list_market_items_eq (db : DB) (limit : ℕ) (names : List String) (base : ℚ)
    (schedule : List (ℤ × ℤ × ℚ)) (surge : Option SurgeWindow) (hour : ℤ) :
    list_market_items db limit true names base schedule surge hour =
      List.mergeSort (list_provider_market_items names base schedule surge hour ++
        (list_active_household_offers db limit).map householdItem) priceLe := by
  rfl

/-- C9: with virtual provider pricing enabled, the market snapshot is a
stable sort by ascending price of the provider items concatenated with the
capped household listings: it is a permutation of that concatenation, it is
pairwise ordered by price, and any price-respecting pair of the
concatenation (in particular any price tie, in either source's own order)
survives as a pair of the output; concretely, with one provider priced 0.30
and one household offer priced 0.20, the household offer comes first. -/
theorem C9_market_snapshot (db : DB) (limit : ℕ) (names : List String) (base : ℚ)
    (schedule : List (ℤ × ℤ × ℚ)) (surge : Option SurgeWindow) (hour : ℤ) :
    (list_market_items db limit true names base schedule surge hour).Perm
      (list_provider_market_items names base schedule surge hour ++
        (list_active_household_offers db limit).map householdItem) ∧
    (list_market_items db limit true names base schedule surge hour).Pairwise
      (fun a b => a.price_eur_per_kwh ≤ b.price_eur_per_kwh) ∧
    (∀ a b : MarketItemOut,
      [a, b].Sublist (list_provider_market_items names base schedule surge hour ++
        (list_active_household_offers db limit).map householdItem) →
      a.price_eur_per_kwh ≤ b.price_eur_per_kwh →
      [a, b].Sublist (list_market_items db limit true names base schedule surge hour)) ∧
    list_market_items dbTwo 1 true ["utility"] (3/10) [] none 0 =
      [⟨"household", none, none, none, some 7, some 1, some 10, 1/5⟩,
       ⟨"provider", some "provider-utility", some "utility", some 1, none, none, none, 3/10⟩] := by
  refine ⟨?_, ?_, ?_, ?_⟩
  · rw [list_market_items_eq]
    exact List.mergeSort_perm _ _
  · rw [list_market_items_eq]
    exact List.Pairwise.imp (fun hab => by simpa [priceLe, decide_eq_true_eq] using hab)
      (List.sorted_mergeSort priceLe_trans priceLe_total _)
  · intro a b hsub hle
    rw [list_market_items_eq]
    exact List.pair_sublist_mergeSort priceLe_trans priceLe_total
      (by simpa [priceLe, decide_eq_true_eq] using hle) hsub
  · have hH : list_active_household_offers dbTwo 1 =
        [(7, ⟨1, 10, 10, 1/5, OfferStatus.active, 0⟩)] := by
      norm_num [list_active_household_offers, dbTwo, List.filter]
    have hP : list_provider_market_items ["utility"] (3/10) [] none 0 =
        [⟨"provider", some "provider-utility", some "utility", some 1,
          none, none, none, 3/10⟩] := by
      norm_num [list_provider_market_items, provider_price, provider_multiplier,
        schedule_mult, round4, rhe]
      decide
    rw [list_market_items_eq, hH, hP]
    simp only [List.map_cons, List.map_nil, householdItem, List.cons_append, List.nil_append]
    rw [List.mergeSort]
    norm_num [List.merge, List.mergeSort, priceLe]

theorem C9_market_snapshot_witness :
    (list_market_items dbTwo 1 true ["utility"] (3/10) [] none 0).Perm
      (list_provider_market_items ["utility"] (3/10) [] none 0 ++
        (list_active_household_offers dbTwo 1).map householdItem) ∧
    list_market_items dbTwo 1 true ["utility"] (3/10) [] none 0 =
      [⟨"household", none, none, none, some 7, some 1, some 10, 1/5⟩,
       ⟨"provider", some "provider-utility", some "utility", some 1, none, none, none, 3/10⟩] :=
  ⟨(C9_market_snapshot dbTwo 1 ["utility"] (3/10) [] none 0).1,
   (C9_market_snapshot dbTwo 1 ["utility"] (3/10) [] none 0).2.2.2⟩

end EnergyMarket
